import Mathlib

/-!
Verification development for the book search engine repository
(offline similarity-graph pipeline in `scripts/build_graphs.py`,
worker-count policy in `scripts/config.py`, and the query-time
ranking/suggestion path in `back_end/gutenberg_api/views.py` and
`back_end/gutenberg_api/apps.py`).

Python dictionaries are modelled as total functions (`.get` with a
default becomes `Option.getD` or an explicit fallback), Python floats
as rationals, Python sets as `Finset`, and the multiprocessing pools
as explicit partitions of the row-index list whose local results are
concatenated after all workers finish (`multiprocessing.Pool.map`
returns per-task results in task order).
-/

namespace BookSearch

/-- Book identifiers (Gutenberg ids / file stems). -/
abbrev BookId := ℕ

/-- An edge tuple `(source, target, weight)` as produced by
`worker_compare_row` and consumed by `compute_centrality_parallel`
in `scripts/build_graphs.py`. -/
structure WEdge where
  src : BookId
  tgt : BookId
  w   : ℚ
deriving DecidableEq, Repr

/-- `compute_jaccard` from `scripts/build_graphs.py`:
`intersection / union if union > 0 else 0.0`, where `intersection`
and `union` are the cardinalities of the set intersection and union. -/
def compute_jaccard {α : Type} [DecidableEq α] (set_a set_b : Finset α) : ℚ :=
  if 0 < (set_a ∪ set_b).card then
    ((set_a ∩ set_b).card : ℚ) / ((set_a ∪ set_b).card : ℚ)
  else 0

/-- The loop body shared by the row worker and the reference double
loop: score one candidate pair, keep it only when the score strictly
exceeds the threshold (`if score > config.JACCARD_THRESHOLD` in
`worker_compare_row`). -/
def pair_edge {α : Type} [DecidableEq α] (books : BookId → Finset α)
    (thr : ℚ) (id_a id_b : BookId) : Option WEdge :=
  let score := compute_jaccard (books id_a) (books id_b)
  if thr < score then some ⟨id_a, id_b, score⟩ else none

/-- `worker_compare_row` from `scripts/build_graphs.py`: compares
`books[ids[i]]` against every `books[ids[j]]` with `j > i` and returns
the local edge list of row `i`.  The id list `ids` stands for
`SHARED_IDS`, the function `books` for the `SHARED_BOOKS` dictionary. -/
def worker_compare_row {α : Type} [DecidableEq α] (books : BookId → Finset α)
    (thr : ℚ) (ids : List BookId) (i : ℕ) : List WEdge :=
  match ids.drop i with
  | [] => []
  | id_a :: rest => rest.filterMap (pair_edge books thr id_a)

/-- Modelled from the spec: the sequential exhaustive double loop over
all unordered pairs `i < j` of the id list — the reference point of the
refinement claim for the parallel build. -/
def seq_pair_edges {α : Type} [DecidableEq α] (books : BookId → Finset α)
    (thr : ℚ) : List BookId → List WEdge
  | [] => []
  | id_a :: rest =>
      rest.filterMap (pair_edge books thr id_a) ++ seq_pair_edges books thr rest

/-- `build_edges_parallel` from `scripts/build_graphs.py`:
`pool.map(worker_compare_row, range(n))` followed by flattening the
per-row local edge lists in row order
(`[edge for sublist in results for edge in sublist]`). -/
def build_edges_parallel {α : Type} [DecidableEq α] (books : BookId → Finset α)
    (thr : ℚ) (ids : List BookId) : List WEdge :=
  ((List.range ids.length).map (worker_compare_row books thr ids)).flatten

/-- The row-partitioned worker pool: each worker receives a block of
row indices, computes the local edge list of each of its rows, and the
per-worker local lists are concatenated only after all workers are done
(the parent's merge step in `build_edges_parallel`). -/
def build_edges_chunked {α : Type} [DecidableEq α] (books : BookId → Finset α)
    (thr : ℚ) (ids : List BookId) (chunks : List (List ℕ)) : List WEdge :=
  (chunks.map fun c => (c.map (worker_compare_row books thr ids)).flatten).flatten

/-- Two edges carry the same unordered id pair. -/
def same_unordered_pair (e₁ e₂ : WEdge) : Prop :=
  (e₁.src = e₂.src ∧ e₁.tgt = e₂.tgt) ∨ (e₁.src = e₂.tgt ∧ e₁.tgt = e₂.src)

instance (e₁ e₂ : WEdge) : Decidable (same_unordered_pair e₁ e₂) := by
  unfold same_unordered_pair; infer_instance

/-! ### Distance graph and centrality records
(`compute_centrality_parallel` in `scripts/build_graphs.py`) -/

/-- The weight inversion in `compute_centrality_parallel`:
`dist = 1.0 - w if w < 1.0 else 0.001`. -/
def dist_weight (w : ℚ) : ℚ :=
  if w < 1 then 1 - w else 1/1000

/-- The distance graph built from the accepted edge list
(`graph.add_edge(u, v, weight=dist)` for each accepted edge). -/
def distance_edges (es : List WEdge) : List WEdge :=
  es.map fun e => ⟨e.src, e.tgt, dist_weight e.w⟩

/-- `networkx.Graph` node insertion: adding an edge registers each
endpoint once, in first-appearance order. -/
def insert_node (ns : List BookId) (b : BookId) : List BookId :=
  if b ∈ ns then ns else ns ++ [b]

/-- The node list of the graph built from an edge list
(`list(graph.nodes())` after all `add_edge` calls). -/
def graph_nodes (es : List WEdge) : List BookId :=
  es.foldl (fun ns e => insert_node (insert_node ns e.src) e.tgt) []

/-- One output row of `compute_centrality_parallel`:
`{"id": node, "pagerank": ..., "closeness": ...}`. -/
structure CentralityRecord where
  id        : BookId
  pagerank  : ℚ
  closeness : ℚ
deriving DecidableEq, Repr

/-- The record table assembled at the end of
`compute_centrality_parallel`: one row per graph node, scores looked
up in the `pagerank` and `closeness` dictionaries with default `0`
(`pagerank.get(node, 0)`, `closeness.get(node, 0)`); `pr` and `cl`
stand for those dictionaries as total functions. -/
def centrality_records (pr cl : BookId → ℚ) (es : List WEdge) :
    List CentralityRecord :=
  (graph_nodes es).map fun n => ⟨n, pr n, cl n⟩

/-! ### Shortest weighted paths and closeness centrality
(`worker_closeness` in `scripts/build_graphs.py`, which calls
`nx.closeness_centrality(SHARED_GRAPH, u=node, distance='weight')`) -/

/-- Minimum of two optional distances (`none` = infinity). -/
def omin : Option ℚ → Option ℚ → Option ℚ
  | none, x => x
  | some a, none => some a
  | some a, some b => some (min a b)

/-- Relax the tentative distance of `v` through a single undirected
edge: if `v` is one endpoint and the far endpoint already has a
tentative distance, `v`'s distance may drop to that distance plus the
edge weight. -/
def relax_step (d : BookId → Option ℚ) (v : BookId) (acc : Option ℚ)
    (e : WEdge) : Option ℚ :=
  let acc1 := if e.tgt = v then omin acc ((d e.src).map fun x => x + e.w)
    else acc
  if e.src = v then omin acc1 ((d e.tgt).map fun x => x + e.w) else acc1

/-- One Bellman–Ford relaxation pass over the undirected edge list. -/
def relax_once (es : List WEdge) (d : BookId → Option ℚ) : BookId → Option ℚ :=
  fun v => es.foldl (relax_step d v) (d v)

/-- Shortest weighted path distance from `u` in the undirected graph
given by `es` (`none` = unreachable): `n` relaxation passes starting
from the singleton source assignment, `n` being the node count, which
settles all shortest paths for the nonnegative weights used here.
This models the `dijkstra` distances underlying
`nx.closeness_centrality(..., distance='weight')`. -/
def sp_dist (es : List WEdge) (u : BookId) : BookId → Option ℚ :=
  (relax_once es)^[(graph_nodes es).length]
    (fun v => if v = u then some 0 else none)

/-- Number of nodes reachable from `u` (including `u` itself) — the
size `len(sp)` of the shortest-path dictionary in networkx's
`closeness_centrality`. -/
def reach_count (es : List WEdge) (u : BookId) : ℕ :=
  ((graph_nodes es).filter fun v => (sp_dist es u v).isSome).length

/-- Sum of the shortest-path distances from `u` to every reachable
node — `totsp = sum(sp.values())` in networkx's `closeness_centrality`. -/
def total_dist (es : List WEdge) (u : BookId) : ℚ :=
  ((graph_nodes es).map fun v => (sp_dist es u v).getD 0).sum

/-- `nx.closeness_centrality(G, u, distance='weight')` with its default
`wf_improved=True`, as implemented by networkx (the call made by
`worker_closeness`): `(len(sp)-1)/totsp` scaled by the Wasserman–Faust
factor `(len(sp)-1)/(len(G)-1)` whenever `totsp > 0` and the graph has
more than one node, and `0.0` otherwise. -/
def closeness_centrality_nx (es : List WEdge) (u : BookId) : ℚ :=
  if 0 < total_dist es u ∧ 1 < (graph_nodes es).length then
    (((reach_count es u : ℚ) - 1) / total_dist es u) *
      (((reach_count es u : ℚ) - 1) / (((graph_nodes es).length : ℚ) - 1))
  else 0

/-- The merged closeness dictionary produced by the parallel
closeness step: every graph node is mapped to the closeness value
computed by `worker_closeness` on the distance graph. -/
def closeness_table (es : List WEdge) : BookId → ℚ :=
  fun n => closeness_centrality_nx (distance_edges es) n

/-- Modelled from the spec: the average shortest weighted path
distance from a node to all other nodes reachable from it. -/
def avg_reach_dist (es : List WEdge) (u : BookId) : ℚ :=
  total_dist es u / ((reach_count es u : ℚ) - 1)

/-- Modelled from the spec: the reciprocal of the average shortest
weighted path distance — the value the spec asserts for the locality
score. -/
def recip_avg_dist (es : List WEdge) (u : BookId) : ℚ :=
  1 / avg_reach_dist es u

/-! ### Query-time rank fusion
(`BaseSearchView.calculate_ranking` in `back_end/gutenberg_api/views.py`) -/

/-- A search hit as consumed by `calculate_ranking`: the document id
and the relevance score `hit.meta.score` returned by the search index. -/
structure Hit where
  id        : BookId
  relevance : ℚ
deriving DecidableEq, Repr

/-- A ranked result row (id and final score; display fields omitted). -/
structure RankedHit where
  id    : BookId
  score : ℚ
deriving DecidableEq, Repr

/-- `round(x, 4)`: rounding to four decimal places. -/
def round4 (x : ℚ) : ℚ := round (x * 10000) / 10000

/-- `max((hit.meta.score for hit in es_results), default=1.0)`. -/
def max_es_of (hits : List Hit) : ℚ :=
  ((hits.map fun h => h.relevance).max?).getD 1

/-- The divisor actually used: `if max_es == 0: max_es = 1.0`. -/
def effective_max (hits : List Hit) : ℚ :=
  if max_es_of hits = 0 then 1 else max_es_of hits

/-- `norm_es = es_score / max_es` for one hit of the batch. -/
def norm_relevance (hits : List Hit) (h : Hit) : ℚ :=
  h.relevance / effective_max hits

/-- Score one hit: pagerank looked up with default `0`
(`book_ranks.get(book_id, {'pagerank': 0, ...})`), `norm_pr =
pagerank * 50`, `final_score = norm_es * 0.7 + norm_pr * 0.3`,
stored as `round(final_score, 4)`. -/
def score_hit (ranks : BookId → Option ℚ) (hits : List Hit) (h : Hit) :
    RankedHit :=
  let pagerank := (ranks h.id).getD 0
  let norm_es := norm_relevance hits h
  let norm_pr := pagerank * 50
  ⟨h.id, round4 (norm_es * (7/10) + norm_pr * (3/10))⟩

/-- The comparison used for the final descending stable sort
(`ranked_results.sort(key=lambda x: x['score'], reverse=True)`). -/
def desc_by_score (a b : RankedHit) : Bool :=
  decide (b.score ≤ a.score)

/-- `BaseSearchView.calculate_ranking`: score every hit of the batch,
then sort by final score descending; Python's `list.sort` is stable,
modelled by the stable `List.mergeSort`. -/
def calculate_ranking (ranks : BookId → Option ℚ) (hits : List Hit) :
    List RankedHit :=
  (hits.map (score_hit ranks hits)).mergeSort desc_by_score

/-! ### Worker-count policy (`ResourceAllocator` in `scripts/config.py`) -/

/-- `ResourceAllocator.ram_intensive`: `10` in Docker, else
`min(6, SYSTEM_CORES)`. -/
def ram_intensive_workers (in_docker : Bool) (system_cores : ℕ) : ℕ :=
  if in_docker then 10 else min 6 system_cores

/-- `ResourceAllocator.cpu_intensive`: `20` in Docker (the Docker CPU
limit), else `SYSTEM_CORES`. -/
def cpu_intensive_workers (in_docker : Bool) (system_cores : ℕ) : ℕ :=
  if in_docker then 20 else system_cores

/-- `ResourceAllocator.io_intensive`: `8` in Docker, else `4`. -/
def io_intensive_workers (in_docker : Bool) : ℕ :=
  if in_docker then 8 else 4

/-- `ResourceAllocator.download`: always `13`. -/
def download_workers : ℕ := 13

/-- The core count available to the process: the Docker CPU limit when
containerized (the count `cpu_intensive` is documented to use in full),
otherwise `multiprocessing.cpu_count()`. -/
def available_cores (in_docker : Bool) (system_cores : ℕ) : ℕ :=
  if in_docker then 20 else system_cores

/-! ### Query-time adjacency snapshot
(`GutenbergApiConfig.ready` in `back_end/gutenberg_api/apps.py` and
`SuggestionView.get` in `back_end/gutenberg_api/views.py`) -/

/-- The adjacency snapshot loaded at startup:
`df.groupby('source')['target'].apply(list)` keyed only by the
`source` column, and `SuggestionView`'s lookup
`graph.get(book_id, [])` — a book id that is no edge's source yields
the empty neighbor list. -/
def build_adjacency (es : List WEdge) (b : BookId) : List BookId :=
  (es.filter fun e => e.src = b).map fun e => e.tgt

/-- `SuggestionView.get`: read the neighbor ids from the snapshot,
return an empty result when there are none, otherwise hand the ids to
the search index for hydration (modelled by the abstract `hydrate`). -/
def suggestion_response (hydrate : List BookId → List BookId)
    (es : List WEdge) (b : BookId) : List BookId :=
  let neighbor_ids := build_adjacency es b
  if neighbor_ids = [] then [] else hydrate neighbor_ids

/-! ### Concrete data used by witnesses and counterexamples -/

/-- The spec's three-book example corpus (term sets renamed to
numerals): book 1 and 2 share two of four terms (Jaccard `1/2`), book
3 is disjoint from both. -/
def books3 : BookId → Finset ℕ := fun i =>
  if i = 1 then {10, 11, 12}
  else if i = 2 then {11, 12, 13}
  else if i = 3 then {20, 21, 22} else ∅

/-- A four-book corpus whose similarity graph has two components:
books 1–2 overlap (Jaccard `3/4`), books 3–4 overlap (Jaccard `3/4`),
no other pair shares a term. -/
def books4 : BookId → Finset ℕ := fun i =>
  if i = 1 then {10, 11, 12, 13}
  else if i = 2 then {10, 11, 12}
  else if i = 3 then {20, 21, 22, 23}
  else if i = 4 then {20, 21, 22} else ∅

/-- The configured Jaccard threshold (`jaccard_threshold: 0.15` in
`scripts/config.py`). -/
def jaccard_threshold : ℚ := 15/100

/-- The spec's rank-fusion example batch: relevances `[10, 5, 0]`. -/
def example_hits : List Hit := [⟨1, 10⟩, ⟨2, 5⟩, ⟨3, 0⟩]

/-- The spec's rank-fusion example authority table:
`{1: 0.02, 2: 0.01, 3: 0}`. -/
def example_ranks : BookId → Option ℚ := fun b =>
  if b = 1 then some (1/50)
  else if b = 2 then some (1/100)
  else if b = 3 then some 0 else none

/-- The distance graph of the `books4` corpus: two components
`1 — 2` and `3 — 4`, both edges of distance `1 − 3/4 = 1/4`. -/
def cex_edges : List WEdge := [⟨1, 2, 1/4⟩, ⟨3, 4, 1/4⟩]

/-- A connected single-edge distance graph, distance `1/4`. -/
def sw_edges : List WEdge := [⟨1, 2, 1/4⟩]

/-- The settled shortest-path assignment from source `1` in both
`cex_edges` and `sw_edges`: distance `0` to itself, `1/4` to node `2`,
everything else unreachable. -/
def cex_dist : BookId → Option ℚ := fun v =>
  if v = 1 then some 0 else if v = 2 then some (1/4) else none

end BookSearch

/-! ## Theorems -/

namespace BookSearch

/-! ### Jaccard similarity (C2, and weight bounds for C3/C6) -/

theorem compute_jaccard_nonneg {α : Type} [DecidableEq α] (a b : Finset α) :
    0 ≤ compute_jaccard a b := by
  unfold compute_jaccard
  split
  · positivity
  · exact le_refl 0

theorem compute_jaccard_le_one {α : Type} [DecidableEq α] (a b : Finset α) :
    compute_jaccard a b ≤ 1 := by
  unfold compute_jaccard
  split
  · rename_i h
    rw [div_le_one (by exact_mod_cast h)]
    exact_mod_cast Finset.card_le_card
      (Finset.inter_subset_left.trans Finset.subset_union_left)
  · norm_num

/-- C2: the Jaccard similarity is `1` on any non-empty set compared
with itself, `0` on two empty sets, and symmetric in its arguments. -/
theorem jaccard_self_empty_comm : ∀ {α : Type} [DecidableEq α] (A B : Finset α),
    (A.Nonempty → compute_jaccard A A = 1) ∧
    compute_jaccard (∅ : Finset α) (∅ : Finset α) = 0 ∧
    compute_jaccard A B = compute_jaccard B A := by
  intro α _ A B
  refine ⟨?_, ?_, ?_⟩
  · intro hA
    have hcard : 0 < A.card := Finset.card_pos.mpr hA
    unfold compute_jaccard
    rw [Finset.union_self, Finset.inter_self, if_pos hcard, div_self]
    exact_mod_cast hcard.ne'
  · unfold compute_jaccard
    simp
  · unfold compute_jaccard
    rw [Finset.union_comm, Finset.inter_comm]

/-! ### The parallel edge build refines the sequential double loop (C1) -/

theorem pair_edge_eq_some {α : Type} [DecidableEq α] {books : BookId → Finset α}
    {thr : ℚ} {a b : BookId} {e : WEdge}
    (h : pair_edge books thr a b = some e) :
    e.src = a ∧ e.tgt = b ∧ e.w = compute_jaccard (books a) (books b) ∧
      thr < e.w := by
  simp only [pair_edge] at h
  split at h
  · rename_i hlt
    injection h with h
    subst h
    exact ⟨rfl, rfl, rfl, hlt⟩
  · exact absurd h (by simp)

theorem worker_compare_row_zero {α : Type} [DecidableEq α]
    (books : BookId → Finset α) (thr : ℚ) (a : BookId) (rest : List BookId) :
    worker_compare_row books thr (a :: rest) 0
      = rest.filterMap (pair_edge books thr a) := rfl

theorem worker_compare_row_succ {α : Type} [DecidableEq α]
    (books : BookId → Finset α) (thr : ℚ) (a : BookId) (rest : List BookId)
    (i : ℕ) :
    worker_compare_row books thr (a :: rest) (i + 1)
      = worker_compare_row books thr rest i := by
  unfold worker_compare_row
  rw [List.drop_succ_cons]

theorem flatten_rows_eq_seq {α : Type} [DecidableEq α]
    (books : BookId → Finset α) (thr : ℚ) :
    ∀ ids : List BookId,
      ((List.range ids.length).map (worker_compare_row books thr ids)).flatten
        = seq_pair_edges books thr ids
  | [] => by simp [seq_pair_edges]
  | a :: rest => by
      have hmap : (List.map Nat.succ (List.range rest.length)).map
          (worker_compare_row books thr (a :: rest))
          = (List.range rest.length).map (worker_compare_row books thr rest) := by
        rw [List.map_map]
        exact List.map_congr_left fun i _ =>
          worker_compare_row_succ books thr a rest i
      rw [List.length_cons, List.range_succ_eq_map, List.map_cons,
        List.flatten_cons, hmap, flatten_rows_eq_seq books thr rest]
      rfl

theorem build_eq_seq {α : Type} [DecidableEq α] (books : BookId → Finset α)
    (thr : ℚ) (ids : List BookId) :
    build_edges_parallel books thr ids = seq_pair_edges books thr ids :=
  flatten_rows_eq_seq books thr ids

theorem chunked_eq_flatten {α : Type} [DecidableEq α] (books : BookId → Finset α)
    (thr : ℚ) (ids : List BookId) (chunks : List (List ℕ)) :
    build_edges_chunked books thr ids chunks
      = ((chunks.flatten).map (worker_compare_row books thr ids)).flatten := by
  unfold build_edges_chunked
  rw [List.map_flatten, List.flatten_flatten, List.map_map]
  rfl

theorem chunked_eq_seq {α : Type} [DecidableEq α] (books : BookId → Finset α)
    (thr : ℚ) (ids : List BookId) (chunks : List (List ℕ))
    (hpart : chunks.flatten = List.range ids.length) :
    build_edges_chunked books thr ids chunks = seq_pair_edges books thr ids := by
  rw [chunked_eq_flatten, hpart, flatten_rows_eq_seq]

theorem mem_seq_endpoints {α : Type} [DecidableEq α] {books : BookId → Finset α}
    {thr : ℚ} :
    ∀ {ids : List BookId} {e : WEdge}, e ∈ seq_pair_edges books thr ids →
      e.src ∈ ids ∧ e.tgt ∈ ids
  | [], e, h => by simp [seq_pair_edges] at h
  | a :: rest, e, h => by
      simp only [seq_pair_edges] at h
      rw [List.mem_append] at h
      cases h with
      | inl h =>
          obtain ⟨b, hb, hpe⟩ := List.mem_filterMap.mp h
          obtain ⟨hsrc, htgt, -, -⟩ := pair_edge_eq_some hpe
          exact ⟨by rw [hsrc]; exact List.mem_cons_self a rest,
                 by rw [htgt]; exact List.mem_cons_of_mem a hb⟩
      | inr h =>
          have ih := mem_seq_endpoints h
          exact ⟨List.mem_cons_of_mem a ih.1, List.mem_cons_of_mem a ih.2⟩

theorem seq_pairwise_unique {α : Type} [DecidableEq α]
    (books : BookId → Finset α) (thr : ℚ) :
    ∀ {ids : List BookId}, ids.Nodup →
      (seq_pair_edges books thr ids).Pairwise
        fun e₁ e₂ => ¬ same_unordered_pair e₁ e₂
  | [], _ => by simp [seq_pair_edges]
  | a :: rest, hnd => by
      rw [List.nodup_cons] at hnd
      obtain ⟨ha, hrest⟩ := hnd
      simp only [seq_pair_edges]
      rw [List.pairwise_append]
      refine ⟨?_, seq_pairwise_unique books thr hrest, ?_⟩
      · rw [List.pairwise_filterMap]
        refine List.Pairwise.imp_of_mem ?_ hrest
        intro b₁ b₂ hb₁ hb₂ hne e₁ he₁ e₂ he₂ hsame
        obtain ⟨hs₁, ht₁, -, -⟩ := pair_edge_eq_some he₁
        obtain ⟨hs₂, ht₂, -, -⟩ := pair_edge_eq_some he₂
        rcases hsame with ⟨-, h₂⟩ | ⟨h₁, -⟩
        · exact hne (by rw [← ht₁, ← ht₂, h₂])
        · exact ha (by rw [← hs₁, h₁, ht₂]; exact hb₂)
      · intro e₁ he₁ e₂ he₂ hsame
        obtain ⟨b, hb, hpe⟩ := List.mem_filterMap.mp he₁
        obtain ⟨hs₁, -, -, -⟩ := pair_edge_eq_some hpe
        have hends := mem_seq_endpoints he₂
        rcases hsame with ⟨h₁, -⟩ | ⟨h₁, -⟩
        · exact ha (by rw [← hs₁, h₁]; exact hends.1)
        · exact ha (by rw [← hs₁, h₁]; exact hends.2)

/-- C1: for every corpus and every row partition of the index list
into worker blocks, the parallel edge build (workers computing the
pairs `(i, j > i)` of their row indices, local lists merged after all
workers complete) returns the same edge list as the sequential
exhaustive double loop over all unordered pairs `i < j`; moreover each
unordered pair appears at most once in the result. -/
theorem parallel_build_refines_sequential {α : Type} [DecidableEq α]
    (books : BookId → Finset α) (thr : ℚ) (ids : List BookId)
    (chunks : List (List ℕ)) (hpart : chunks.flatten = List.range ids.length)
    (hids : ids.Nodup) :
    build_edges_chunked books thr ids chunks = seq_pair_edges books thr ids ∧
    build_edges_parallel books thr ids = seq_pair_edges books thr ids ∧
    (build_edges_parallel books thr ids).Pairwise
      (fun e₁ e₂ => ¬ same_unordered_pair e₁ e₂) := by
  refine ⟨chunked_eq_seq books thr ids chunks hpart,
    build_eq_seq books thr ids, ?_⟩
  rw [build_eq_seq]
  exact seq_pairwise_unique books thr hids

/-- Witness for C1: the three-book example corpus, split into the row
blocks `[0]` and `[1, 2]`. -/
theorem parallel_build_refines_sequential_witness :
    ([[0], [1, 2]] : List (List ℕ)).flatten = List.range 3 ∧
    ([1, 2, 3] : List BookId).Nodup ∧
    (build_edges_chunked books3 jaccard_threshold [1, 2, 3] [[0], [1, 2]]
        = seq_pair_edges books3 jaccard_threshold [1, 2, 3] ∧
      build_edges_parallel books3 jaccard_threshold [1, 2, 3]
        = seq_pair_edges books3 jaccard_threshold [1, 2, 3] ∧
      (build_edges_parallel books3 jaccard_threshold [1, 2, 3]).Pairwise
        (fun e₁ e₂ => ¬ same_unordered_pair e₁ e₂)) :=
  ⟨by decide, by decide,
    parallel_build_refines_sequential books3 jaccard_threshold [1, 2, 3]
      [[0], [1, 2]] (by decide) (by decide)⟩

/-! ### Weight bounds of accepted edges (C3) and distance positivity (C6) -/

theorem seq_weight_bounds {α : Type} [DecidableEq α] (books : BookId → Finset α)
    (thr : ℚ) :
    ∀ {ids : List BookId} {e : WEdge}, e ∈ seq_pair_edges books thr ids →
      thr < e.w ∧ e.w ≤ 1
  | [], e, h => by simp [seq_pair_edges] at h
  | a :: rest, e, h => by
      simp only [seq_pair_edges] at h
      rw [List.mem_append] at h
      cases h with
      | inl h =>
          obtain ⟨b, hb, hpe⟩ := List.mem_filterMap.mp h
          obtain ⟨-, -, hw, hthr⟩ := pair_edge_eq_some hpe
          exact ⟨hthr, by rw [hw]; exact compute_jaccard_le_one _ _⟩
      | inr h => exact seq_weight_bounds books thr h

/-- C3: every edge produced by the similarity build has weight
strictly above the configured threshold, strictly positive (for a
nonnegative threshold such as the default `0.15`), and at most `1`. -/
theorem build_edge_weight_bounds {α : Type} [DecidableEq α]
    (books : BookId → Finset α) (thr : ℚ) (ids : List BookId)
    (hthr : 0 ≤ thr) :
    ∀ e ∈ build_edges_parallel books thr ids,
      0 < e.w ∧ e.w ≤ 1 ∧ thr < e.w := by
  intro e he
  rw [build_eq_seq] at he
  obtain ⟨hgt, hle⟩ := seq_weight_bounds books thr he
  exact ⟨lt_of_le_of_lt hthr hgt, hle, hgt⟩

/-! Concrete evaluation of the three-book example build. -/

theorem books3_jaccard_12 : compute_jaccard (books3 1) (books3 2) = 1/2 := by
  have h1 : books3 1 = {10, 11, 12} := by norm_num [books3]
  have h2 : books3 2 = {11, 12, 13} := by norm_num [books3]
  have hi : (({10, 11, 12} : Finset ℕ) ∩ {11, 12, 13}).card = 2 := by decide
  have hu : (({10, 11, 12} : Finset ℕ) ∪ {11, 12, 13}).card = 4 := by decide
  rw [h1, h2]
  unfold compute_jaccard
  rw [hi, hu]
  norm_num

theorem books3_jaccard_13 : compute_jaccard (books3 1) (books3 3) = 0 := by
  have h1 : books3 1 = {10, 11, 12} := by norm_num [books3]
  have h3 : books3 3 = {20, 21, 22} := by norm_num [books3]
  have hi : (({10, 11, 12} : Finset ℕ) ∩ {20, 21, 22}).card = 0 := by decide
  have hu : (({10, 11, 12} : Finset ℕ) ∪ {20, 21, 22}).card = 6 := by decide
  rw [h1, h3]
  unfold compute_jaccard
  rw [hi, hu]
  norm_num

theorem books3_jaccard_23 : compute_jaccard (books3 2) (books3 3) = 0 := by
  have h2 : books3 2 = {11, 12, 13} := by norm_num [books3]
  have h3 : books3 3 = {20, 21, 22} := by norm_num [books3]
  have hi : (({11, 12, 13} : Finset ℕ) ∩ {20, 21, 22}).card = 0 := by decide
  have hu : (({11, 12, 13} : Finset ℕ) ∪ {20, 21, 22}).card = 6 := by decide
  rw [h2, h3]
  unfold compute_jaccard
  rw [hi, hu]
  norm_num

theorem build_books3_eval :
    build_edges_parallel books3 jaccard_threshold [1, 2, 3]
      = [⟨1, 2, 1/2⟩] := by
  rw [build_eq_seq]
  simp only [seq_pair_edges, pair_edge, List.filterMap_cons, List.filterMap_nil,
    books3_jaccard_12, books3_jaccard_13, books3_jaccard_23, jaccard_threshold]
  norm_num

/-- Witness for C3: on the example corpus the build yields the single
edge `(1, 2, 1/2)`, whose weight obeys all three bounds. -/
theorem build_edge_weight_bounds_witness :
    (0 : ℚ) ≤ jaccard_threshold ∧
    (⟨1, 2, 1/2⟩ : WEdge) ∈ build_edges_parallel books3 jaccard_threshold [1, 2, 3] ∧
    (0 < (⟨1, 2, (1:ℚ)/2⟩ : WEdge).w ∧ (⟨1, 2, (1:ℚ)/2⟩ : WEdge).w ≤ 1 ∧
      jaccard_threshold < (⟨1, 2, (1:ℚ)/2⟩ : WEdge).w) := by
  have hthr : (0 : ℚ) ≤ jaccard_threshold := by norm_num [jaccard_threshold]
  have hmem : (⟨1, 2, 1/2⟩ : WEdge)
      ∈ build_edges_parallel books3 jaccard_threshold [1, 2, 3] := by
    rw [build_books3_eval]; exact List.mem_singleton.mpr rfl
  exact ⟨hthr, hmem,
    build_edge_weight_bounds books3 jaccard_threshold [1, 2, 3] hthr _ hmem⟩

/-- C6: in the distance graph built from the accepted edge list, an
accepted edge of similarity `w < 1` receives distance exactly `1 − w`,
and every distance weight is strictly positive. -/
theorem distance_weights_positive {α : Type} [DecidableEq α]
    (books : BookId → Finset α) (thr : ℚ) (ids : List BookId) :
    (∀ e ∈ build_edges_parallel books thr ids, e.w < 1 →
        dist_weight e.w = 1 - e.w) ∧
    ∀ e ∈ distance_edges (build_edges_parallel books thr ids), 0 < e.w := by
  constructor
  · intro e _ hw
    unfold dist_weight
    rw [if_pos hw]
  · intro e he
    obtain ⟨e₀, -, rfl⟩ := List.mem_map.mp he
    show 0 < dist_weight e₀.w
    unfold dist_weight
    split
    · rename_i hw; linarith
    · norm_num

/-- Witness for C6: the distance edge obtained from the example build
carries the strictly positive weight `1 − 1/2 = 1/2`. -/
theorem distance_weights_positive_witness :
    (⟨1, 2, (1:ℚ)/2⟩ : WEdge) ∈ build_edges_parallel books3 jaccard_threshold [1, 2, 3] ∧
    (⟨1, 2, (1:ℚ)/2⟩ : WEdge).w < 1 ∧
    dist_weight (⟨1, 2, (1:ℚ)/2⟩ : WEdge).w = 1 - (⟨1, 2, (1:ℚ)/2⟩ : WEdge).w ∧
    (⟨1, 2, (1:ℚ)/2⟩ : WEdge)
      ∈ distance_edges (build_edges_parallel books3 jaccard_threshold [1, 2, 3]) ∧
    0 < (⟨1, 2, (1:ℚ)/2⟩ : WEdge).w := by
  have hmem : (⟨1, 2, 1/2⟩ : WEdge)
      ∈ build_edges_parallel books3 jaccard_threshold [1, 2, 3] := by
    rw [build_books3_eval]; exact List.mem_singleton.mpr rfl
  have hw : (⟨1, 2, (1:ℚ)/2⟩ : WEdge).w < 1 := by norm_num
  have hdmem : (⟨1, 2, (1:ℚ)/2⟩ : WEdge)
      ∈ distance_edges (build_edges_parallel books3 jaccard_threshold [1, 2, 3]) := by
    rw [build_books3_eval]
    show _ ∈ [(⟨1, 2, dist_weight (1/2)⟩ : WEdge)]
    norm_num [dist_weight]
  exact ⟨hmem, hw,
    (distance_weights_positive books3 jaccard_threshold [1, 2, 3]).1 _ hmem hw,
    hdmem,
    (distance_weights_positive books3 jaccard_threshold [1, 2, 3]).2 _ hdmem⟩

/-! ### The centrality table covers exactly the ids with edges (C7) -/

theorem mem_insert_node {ns : List BookId} {b x : BookId} :
    x ∈ insert_node ns b ↔ x ∈ ns ∨ x = b := by
  unfold insert_node
  split
  · rename_i hb
    constructor
    · exact Or.inl
    · rintro (h | rfl)
      · exact h
      · exact hb
  · simp

theorem insert_node_nodup {ns : List BookId} {b : BookId} (h : ns.Nodup) :
    (insert_node ns b).Nodup := by
  unfold insert_node
  split
  · exact h
  · rename_i hb
    rw [List.nodup_append]
    exact ⟨h, List.nodup_singleton b, by simpa using hb⟩

theorem mem_graph_nodes_aux (es : List WEdge) :
    ∀ (ns : List BookId) (x : BookId),
      (x ∈ es.foldl (fun ns e => insert_node (insert_node ns e.src) e.tgt) ns ↔
        x ∈ ns ∨ ∃ e ∈ es, x = e.src ∨ x = e.tgt) := by
  induction es with
  | nil => simp
  | cons e rest ih =>
      intro ns x
      rw [List.foldl_cons, ih]
      simp only [mem_insert_node, List.mem_cons]
      constructor
      · rintro (((h | h) | h) | ⟨e', he', h⟩)
        · exact Or.inl h
        · exact Or.inr ⟨e, Or.inl rfl, Or.inl h⟩
        · exact Or.inr ⟨e, Or.inl rfl, Or.inr h⟩
        · exact Or.inr ⟨e', Or.inr he', h⟩
      · rintro (h | ⟨e', (rfl | he'), h⟩)
        · exact Or.inl (Or.inl (Or.inl h))
        · rcases h with h | h
          · exact Or.inl (Or.inl (Or.inr h))
          · exact Or.inl (Or.inr h)
        · exact Or.inr ⟨e', he', h⟩

theorem nodup_graph_nodes_aux (es : List WEdge) :
    ∀ ns : List BookId, ns.Nodup →
      (es.foldl (fun ns e => insert_node (insert_node ns e.src) e.tgt) ns).Nodup := by
  induction es with
  | nil => exact fun ns h => h
  | cons e rest ih =>
      intro ns h
      rw [List.foldl_cons]
      exact ih _ (insert_node_nodup (insert_node_nodup h))

theorem mem_graph_nodes {es : List WEdge} {x : BookId} :
    x ∈ graph_nodes es ↔ ∃ e ∈ es, x = e.src ∨ x = e.tgt := by
  unfold graph_nodes
  rw [mem_graph_nodes_aux]
  simp

theorem graph_nodes_nodup (es : List WEdge) : (graph_nodes es).Nodup :=
  nodup_graph_nodes_aux es [] List.nodup_nil

/-- C7: the centrality computation emits exactly one record per
distinct book id that appears in at least one accepted edge, and no
record for any other id. -/
theorem centrality_records_cover (pr cl : BookId → ℚ) (es : List WEdge) :
    ((centrality_records pr cl es).map fun r => r.id).Nodup ∧
    ∀ b : BookId,
      ((∃ r ∈ centrality_records pr cl es, r.id = b) ↔
        ∃ e ∈ es, e.src = b ∨ e.tgt = b) := by
  constructor
  · unfold centrality_records
    rw [List.map_map,
      show ((fun r : CentralityRecord => r.id)
          ∘ fun n => (⟨n, pr n, cl n⟩ : CentralityRecord)) = id from rfl,
      List.map_id]
    exact graph_nodes_nodup es
  · intro b
    unfold centrality_records
    constructor
    · rintro ⟨r, hr, rfl⟩
      obtain ⟨n, hn, rfl⟩ := List.mem_map.mp hr
      obtain ⟨e, he, h⟩ := mem_graph_nodes.mp hn
      exact ⟨e, he, h.imp Eq.symm Eq.symm⟩
    · rintro ⟨e, he, h⟩
      refine ⟨⟨b, pr b, cl b⟩, List.mem_map.mpr ⟨b, ?_, rfl⟩, rfl⟩
      exact mem_graph_nodes.mpr ⟨e, he, h.imp Eq.symm Eq.symm⟩

/-! ### Rank fusion (C4, C8) -/

theorem desc_by_score_trans (a b c : RankedHit) :
    desc_by_score a b → desc_by_score b c → desc_by_score a c := by
  simp only [desc_by_score, decide_eq_true_eq]
  exact fun hab hbc => le_trans hbc hab

theorem desc_by_score_total (a b : RankedHit) :
    desc_by_score a b || desc_by_score b a := by
  simp only [desc_by_score]
  rcases le_total a.score b.score with h | h <;> simp [h]

/-- Stability of the final sort: hits with any given final score keep
their original relative order. -/
theorem filter_score_mergeSort (l : List RankedHit) (s : ℚ) :
    (l.mergeSort desc_by_score).filter (fun r => decide (r.score = s))
      = l.filter (fun r => decide (r.score = s)) := by
  set p : RankedHit → Bool := fun r => decide (r.score = s) with hp
  have hpw : (l.filter p).Pairwise fun a b => desc_by_score a b := by
    refine List.pairwise_of_forall_mem_list ?_
    intro a ha b hb
    have ha1 := (List.mem_filter.mp ha).2
    have hb1 := (List.mem_filter.mp hb).2
    rw [hp, decide_eq_true_eq] at ha1 hb1
    simp [desc_by_score, ha1, hb1]
  have h1 : List.Sublist (l.filter p) (l.mergeSort desc_by_score) :=
    List.sublist_mergeSort desc_by_score_trans desc_by_score_total hpw
      (List.filter_sublist l)
  have h2 : List.Sublist (l.filter p) ((l.mergeSort desc_by_score).filter p) := by
    have h3 := h1.filter p
    rwa [List.filter_eq_self.mpr fun a ha => (List.mem_filter.mp ha).2] at h3
  have hlen : (l.filter p).length = ((l.mergeSort desc_by_score).filter p).length := by
    rw [← List.countP_eq_length_filter, ← List.countP_eq_length_filter,
      (List.mergeSort_perm l desc_by_score).countP_eq]
  exact (h2.eq_of_length hlen).symm

/-- C4: rank fusion returns a permutation of the hits scored by
`round4(0.7·(relevance/max) + 0.3·(authority·50))`, sorted by final
score descending with ties kept in their original relative order; on
the spec's example batch (relevances `[10, 5, 0]`, authorities
`[0.02, 0.01, 0]`) the final scores are `[1, 1/2, 0]` in the order
`[1, 2, 3]`. -/
theorem calculate_ranking_spec :
    (∀ (ranks : BookId → Option ℚ) (hits : List Hit),
      (calculate_ranking ranks hits).Perm (hits.map (score_hit ranks hits)) ∧
      (calculate_ranking ranks hits).Pairwise (fun a b => b.score ≤ a.score) ∧
      ∀ s : ℚ,
        (calculate_ranking ranks hits).filter (fun r => decide (r.score = s))
          = (hits.map (score_hit ranks hits)).filter
              (fun r => decide (r.score = s))) ∧
    calculate_ranking example_ranks example_hits
      = [⟨1, 1⟩, ⟨2, 1/2⟩, ⟨3, 0⟩] := by
  constructor
  · intro ranks hits
    refine ⟨List.mergeSort_perm _ desc_by_score, ?_, fun s => ?_⟩
    · have h := List.sorted_mergeSort desc_by_score_trans desc_by_score_total
        (hits.map (score_hit ranks hits))
      exact h.imp fun hab => by
        simpa [desc_by_score, decide_eq_true_eq] using hab
    · exact filter_score_mergeSort (hits.map (score_hit ranks hits)) s
  · have hmax : effective_max [⟨1, 10⟩, ⟨2, 5⟩, ⟨3, 0⟩] = 10 := by
      norm_num [effective_max, max_es_of, List.max?]
    have hmap : example_hits.map (score_hit example_ranks example_hits)
        = [⟨1, 1⟩, ⟨2, 1/2⟩, ⟨3, 0⟩] := by
      simp only [example_hits, List.map_cons, List.map_nil, score_hit,
        norm_relevance, hmax, example_ranks, round4]
      norm_num [round_eq]
    rw [calculate_ranking, hmap]
    norm_num [List.mergeSort, List.merge, List.splitInTwo, desc_by_score]

/-! ### Degenerate normalization (C8) -/

theorem le_foldl_max (t : List ℚ) :
    ∀ a : ℚ, a ≤ t.foldl max a ∧ ∀ x ∈ t, x ≤ t.foldl max a := by
  induction t with
  | nil => exact fun a => ⟨le_refl a, by simp⟩
  | cons b t ih =>
      intro a
      rw [List.foldl_cons]
      obtain ⟨h1, h2⟩ := ih (max a b)
      refine ⟨le_trans (le_max_left a b) h1, ?_⟩
      intro x hx
      rcases List.mem_cons.mp hx with rfl | hx
      · exact le_trans (le_max_right a x) h1
      · exact h2 x hx

theorem max?_spec (l : List ℚ) (m : ℚ) (hm : l.max? = some m) :
    ∀ x ∈ l, x ≤ m := by
  cases l with
  | nil => simp [List.max?] at hm
  | cons a t =>
      rw [show (a :: t).max? = some (t.foldl max a) from rfl] at hm
      injection hm with hm
      intro x hx
      rw [← hm]
      rcases List.mem_cons.mp hx with rfl | hx
      · exact (le_foldl_max t x).1
      · exact (le_foldl_max t a).2 x hx

/-- C8: when the maximum relevance over a (nonnegatively scored) batch
is `0`, the divisor is substituted with `1`, so normalization never
divides by zero and every hit of the batch gets `norm_relevance = 0`. -/
theorem degenerate_normalization (hits : List Hit)
    (hnn : ∀ h ∈ hits, 0 ≤ h.relevance)
    (hmax : max_es_of hits = 0) :
    effective_max hits = 1 ∧ ∀ h ∈ hits, norm_relevance hits h = 0 := by
  have heff : effective_max hits = 1 := by rw [effective_max, if_pos hmax]
  refine ⟨heff, fun h hh => ?_⟩
  have hle : h.relevance ≤ 0 := by
    rw [max_es_of] at hmax
    cases hmo : (hits.map fun x => x.relevance).max? with
    | none => rw [hmo] at hmax; norm_num at hmax
    | some m =>
        rw [hmo, Option.getD_some] at hmax
        have hxm := max?_spec _ m hmo h.relevance
          (List.mem_map.mpr ⟨h, hh, rfl⟩)
        rwa [hmax] at hxm
  have h0 : h.relevance = 0 := le_antisymm hle (hnn h hh)
  rw [norm_relevance, heff, h0]
  norm_num

/-- Witness for C8: an all-zero batch of two hits. -/
theorem degenerate_normalization_witness :
    (∀ h ∈ ([⟨1, 0⟩, ⟨2, 0⟩] : List Hit), 0 ≤ h.relevance) ∧
    max_es_of [⟨1, 0⟩, ⟨2, 0⟩] = 0 ∧
    (effective_max [⟨1, 0⟩, ⟨2, 0⟩] = 1 ∧
      ∀ h ∈ ([⟨1, 0⟩, ⟨2, 0⟩] : List Hit),
        norm_relevance [⟨1, 0⟩, ⟨2, 0⟩] h = 0) := by
  have hnn : ∀ h ∈ ([⟨1, 0⟩, ⟨2, 0⟩] : List Hit), 0 ≤ h.relevance := by
    intro h hh
    rcases List.mem_cons.mp hh with rfl | hh
    · exact le_refl 0
    · rcases List.mem_cons.mp hh with rfl | hh
      · exact le_refl 0
      · simp at hh
  have hmax : max_es_of [⟨1, 0⟩, ⟨2, 0⟩] = 0 := by
    norm_num [max_es_of, List.max?]
  exact ⟨hnn, hmax, degenerate_normalization _ hnn hmax⟩

/-! ### Worker-count policy (C9) -/

/-- C9: the `ResourceAllocator` is a fixed mapping from execution
environment (and detected core count) and task profile to an integer
worker count: `ram_intensive` never exceeds the available core count,
while `cpu_intensive` uses all available cores (`SYSTEM_CORES`
locally, the Docker CPU limit of `20` in a container). -/
theorem resource_allocator_spec :
    ∀ (d : Bool) (c : ℕ),
      ram_intensive_workers d c ≤ available_cores d c ∧
      cpu_intensive_workers d c = available_cores d c ∧
      ram_intensive_workers true c = 10 ∧
      ram_intensive_workers false c = min 6 c ∧
      cpu_intensive_workers true c = 20 ∧
      cpu_intensive_workers false c = c := by
  intro d c
  cases d <;>
    simp [ram_intensive_workers, cpu_intensive_workers, available_cores]

/-! ### Source-keyed adjacency snapshot (C10) -/

theorem build_adjacency_eq_nil {es : List WEdge} {b : BookId}
    (h : ∀ e ∈ es, e.src ≠ b) : build_adjacency es b = [] := by
  unfold build_adjacency
  have hf : es.filter (fun e => e.src = b) = [] := by
    rw [List.filter_eq_nil_iff]
    intro e he
    simpa using h e he
  rw [hf, List.map_nil]

/-- C10: the query-time adjacency snapshot is keyed only by the edge
source column: the target of every persisted edge is listed under its
source, a book id only ever has neighbors if it occurs in the source
column, and for a book id that is no edge's source the suggestion
lookup returns an empty result — even though edges are undirected. -/
theorem adjacency_source_keyed (es : List WEdge) :
    (∀ e ∈ es, e.tgt ∈ build_adjacency es e.src) ∧
    (∀ b : BookId, build_adjacency es b ≠ [] → ∃ e ∈ es, e.src = b) ∧
    (∀ (b : BookId) (hydrate : List BookId → List BookId),
      (∀ e ∈ es, e.src ≠ b) → suggestion_response hydrate es b = []) := by
  refine ⟨?_, ?_, ?_⟩
  · intro e he
    unfold build_adjacency
    exact List.mem_map.mpr ⟨e, List.mem_filter.mpr ⟨he, by simp⟩, rfl⟩
  · intro b hne
    by_contra hcon
    push_neg at hcon
    exact hne (build_adjacency_eq_nil hcon)
  · intro b hydrate h
    unfold suggestion_response
    rw [build_adjacency_eq_nil h]
    simp

/-- Witness for C10: the single undirected edge `(1, 2)` is listed
under source `1` but book `2` — present only in the target column —
gets an empty suggestion result. -/
theorem adjacency_source_keyed_witness :
    (⟨1, 2, (1:ℚ)/2⟩ : WEdge) ∈ ([⟨1, 2, 1/2⟩] : List WEdge) ∧
    (2 : BookId) ∈ build_adjacency [⟨1, 2, 1/2⟩] 1 ∧
    (∀ e ∈ ([⟨1, 2, (1:ℚ)/2⟩] : List WEdge), e.src ≠ 2) ∧
    suggestion_response id [⟨1, 2, 1/2⟩] 2 = [] := by
  have hmem : (⟨1, 2, (1:ℚ)/2⟩ : WEdge) ∈ ([⟨1, 2, 1/2⟩] : List WEdge) :=
    List.mem_singleton.mpr rfl
  have hns : ∀ e ∈ ([⟨1, 2, (1:ℚ)/2⟩] : List WEdge), e.src ≠ 2 := by
    intro e he
    rw [List.mem_singleton] at he
    subst he
    norm_num
  exact ⟨hmem, (adjacency_source_keyed [⟨1, 2, 1/2⟩]).1 _ hmem, hns,
    (adjacency_source_keyed [⟨1, 2, 1/2⟩]).2.2 2 id hns⟩

/-! ### Closeness centrality (C5) -/

theorem relax_step_none {d : BookId → Option ℚ} {v : BookId} {e : WEdge}
    (h1 : d e.src = none) (h2 : d e.tgt = none) :
    relax_step d v none e = none := by
  unfold relax_step
  rw [h1, h2]
  simp [omin]

theorem relax_once_isolated {es : List WEdge} {u : BookId}
    (hes : ∀ e ∈ es, e.src ≠ u ∧ e.tgt ≠ u)
    {d : BookId → Option ℚ} (hd : ∀ v, v ≠ u → d v = none) :
    ∀ v, v ≠ u → relax_once es d v = none := by
  intro v hv
  unfold relax_once
  rw [hd v hv]
  have key : ∀ l : List WEdge, (∀ e ∈ l, e.src ≠ u ∧ e.tgt ≠ u) →
      l.foldl (relax_step d v) none = none := by
    intro l
    induction l with
    | nil => intro _; rfl
    | cons e t ih =>
        intro hl
        have he := hl e (List.mem_cons_self e t)
        rw [List.foldl_cons, relax_step_none (hd e.src he.1) (hd e.tgt he.2)]
        exact ih fun e1 he1 => hl e1 (List.mem_cons_of_mem e he1)
  exact key es hes

theorem sp_dist_isolated {es : List WEdge} {u : BookId}
    (hes : ∀ e ∈ es, e.src ≠ u ∧ e.tgt ≠ u) :
    ∀ v, v ≠ u → sp_dist es u v = none := by
  suffices h : ∀ n, ∀ v, v ≠ u →
      ((relax_once es)^[n] fun v => if v = u then some 0 else none) v = none by
    intro v hv
    exact h (graph_nodes es).length v hv
  intro n
  induction n with
  | zero => intro v hv; simp [hv]
  | succ n ih =>
      intro v hv
      rw [Function.iterate_succ_apply']
      exact relax_once_isolated hes ih v hv

theorem total_dist_isolated {es : List WEdge} {u : BookId}
    (hes : ∀ e ∈ es, e.src ≠ u ∧ e.tgt ≠ u) :
    total_dist es u = 0 := by
  unfold total_dist
  apply List.sum_eq_zero
  intro x hx
  obtain ⟨v, hv, rfl⟩ := List.mem_map.mp hx
  have hvne : v ≠ u := by
    rintro rfl
    obtain ⟨e, he, h⟩ := mem_graph_nodes.mp hv
    rcases h with h | h
    · exact (hes e he).1 h.symm
    · exact (hes e he).2 h.symm
  rw [sp_dist_isolated hes v hvne, Option.getD_none]

/-- C5 (amended): the locality score computed by the parallel
closeness step is the Wasserman–Faust normalized closeness — the
reciprocal of the average shortest weighted path distance to the
reachable nodes, multiplied by `(reachable − 1)/(N − 1)`; on a graph
where all `N` nodes are reachable the factor is `1`, recovering the
spec's plain reciprocal; and a node with no edges receives locality
score exactly `0`. -/
theorem closeness_wf_formula (es : List WEdge) (u : BookId) :
    (0 < total_dist es u → 1 < (graph_nodes es).length →
      closeness_centrality_nx es u
        = recip_avg_dist es u *
          (((reach_count es u : ℚ) - 1) / (((graph_nodes es).length : ℚ) - 1))) ∧
    (reach_count es u = (graph_nodes es).length →
      0 < total_dist es u → 1 < (graph_nodes es).length →
      closeness_centrality_nx es u = recip_avg_dist es u) ∧
    ((∀ e ∈ es, e.src ≠ u ∧ e.tgt ≠ u) → closeness_centrality_nx es u = 0) := by
  have hmain : 0 < total_dist es u → 1 < (graph_nodes es).length →
      closeness_centrality_nx es u
        = recip_avg_dist es u *
          (((reach_count es u : ℚ) - 1) / (((graph_nodes es).length : ℚ) - 1)) := by
    intro h1 h2
    unfold closeness_centrality_nx recip_avg_dist avg_reach_dist
    rw [if_pos ⟨h1, h2⟩, one_div_div]
  refine ⟨hmain, ?_, ?_⟩
  · intro hr h1 h2
    rw [hmain h1 h2, hr]
    have hN : (((graph_nodes es).length : ℚ) - 1) ≠ 0 := by
      have h2q : (1:ℚ) < ((graph_nodes es).length : ℚ) := by exact_mod_cast h2
      exact sub_ne_zero.mpr (ne_of_gt h2q)
    rw [div_self hN, mul_one]
  · intro hes
    unfold closeness_centrality_nx
    rw [total_dist_isolated hes]
    rw [if_neg]
    rintro ⟨h0, -⟩
    exact lt_irrefl 0 h0

/-! Concrete evaluation of the two-component counterexample. -/

theorem cex_nodes : graph_nodes cex_edges = [1, 2, 3, 4] := by
  simp [cex_edges, graph_nodes, insert_node]

theorem cex_len : (graph_nodes cex_edges).length = 4 := by
  rw [cex_nodes]
  rfl

theorem cex_relax_start :
    relax_once cex_edges (fun v => if v = 1 then some 0 else none)
      = cex_dist := by
  funext v
  by_cases h1 : v = 1
  · subst h1
    norm_num [relax_once, relax_step, omin, cex_edges, cex_dist, min_def]
  · by_cases h2 : v = 2
    · subst h2
      norm_num [relax_once, relax_step, omin, cex_edges, cex_dist, min_def]
    · by_cases h3 : v = 3
      · subst h3
        norm_num [relax_once, relax_step, omin, cex_edges, cex_dist, min_def]
      · by_cases h4 : v = 4
        · subst h4
          norm_num [relax_once, relax_step, omin, cex_edges, cex_dist, min_def]
        · simp [relax_once, relax_step, omin, cex_edges, cex_dist, eq_comm,
            h1, h2, h3, h4]

theorem cex_relax_fix : relax_once cex_edges cex_dist = cex_dist := by
  funext v
  by_cases h1 : v = 1
  · subst h1
    norm_num [relax_once, relax_step, omin, cex_edges, cex_dist, min_def]
  · by_cases h2 : v = 2
    · subst h2
      norm_num [relax_once, relax_step, omin, cex_edges, cex_dist, min_def]
    · by_cases h3 : v = 3
      · subst h3
        norm_num [relax_once, relax_step, omin, cex_edges, cex_dist, min_def]
      · by_cases h4 : v = 4
        · subst h4
          norm_num [relax_once, relax_step, omin, cex_edges, cex_dist, min_def]
        · simp [relax_once, relax_step, omin, cex_edges, cex_dist, eq_comm,
            h1, h2, h3, h4]

theorem cex_sp_eval : sp_dist cex_edges 1 = cex_dist := by
  rw [sp_dist, cex_len, show (4:ℕ) = 3 + 1 from rfl,
    Function.iterate_succ_apply, cex_relax_start]
  exact Function.iterate_fixed cex_relax_fix 3

theorem cex_total : total_dist cex_edges 1 = 1/4 := by
  rw [total_dist, cex_sp_eval, cex_nodes]
  norm_num [cex_dist]

theorem cex_reach : reach_count cex_edges 1 = 2 := by
  rw [reach_count, cex_sp_eval, cex_nodes]
  norm_num [cex_dist, List.filter]

theorem cex_closeness : closeness_centrality_nx cex_edges 1 = 4/3 := by
  rw [closeness_centrality_nx, cex_total, cex_reach, cex_len]
  norm_num

theorem cex_recip : recip_avg_dist cex_edges 1 = 4 := by
  rw [recip_avg_dist, avg_reach_dist, cex_total, cex_reach]
  norm_num

/-! Evaluation of the single-edge connected graph. -/

theorem sw_nodes : graph_nodes sw_edges = [1, 2] := by
  simp [sw_edges, graph_nodes, insert_node]

theorem sw_len : (graph_nodes sw_edges).length = 2 := by
  rw [sw_nodes]
  rfl

theorem sw_relax_start :
    relax_once sw_edges (fun v => if v = 1 then some 0 else none)
      = cex_dist := by
  funext v
  by_cases h1 : v = 1
  · subst h1
    norm_num [relax_once, relax_step, omin, sw_edges, cex_dist, min_def]
  · by_cases h2 : v = 2
    · subst h2
      norm_num [relax_once, relax_step, omin, sw_edges, cex_dist, min_def]
    · simp [relax_once, relax_step, omin, sw_edges, cex_dist, eq_comm, h1, h2]

theorem sw_relax_fix : relax_once sw_edges cex_dist = cex_dist := by
  funext v
  by_cases h1 : v = 1
  · subst h1
    norm_num [relax_once, relax_step, omin, sw_edges, cex_dist, min_def]
  · by_cases h2 : v = 2
    · subst h2
      norm_num [relax_once, relax_step, omin, sw_edges, cex_dist, min_def]
    · simp [relax_once, relax_step, omin, sw_edges, cex_dist, eq_comm, h1, h2]

theorem sw_sp_eval : sp_dist sw_edges 1 = cex_dist := by
  rw [sp_dist, sw_len, show (2:ℕ) = 1 + 1 from rfl,
    Function.iterate_succ_apply, sw_relax_start]
  exact Function.iterate_fixed sw_relax_fix 1

theorem sw_total : total_dist sw_edges 1 = 1/4 := by
  rw [total_dist, sw_sp_eval, sw_nodes]
  norm_num [cex_dist]

theorem sw_reach : reach_count sw_edges 1 = 2 := by
  rw [reach_count, sw_sp_eval, sw_nodes]
  norm_num [cex_dist, List.filter]

/-- Witness for C5: on the two-component distance graph the
Wasserman–Faust formula holds at node `1`, on the connected
single-edge graph the plain reciprocal is recovered, and the isolated
node `7` scores `0`. -/
theorem closeness_wf_formula_witness :
    (0 < total_dist cex_edges 1 ∧ 1 < (graph_nodes cex_edges).length ∧
      closeness_centrality_nx cex_edges 1
        = recip_avg_dist cex_edges 1 *
          (((reach_count cex_edges 1 : ℚ) - 1) /
            (((graph_nodes cex_edges).length : ℚ) - 1))) ∧
    (reach_count sw_edges 1 = (graph_nodes sw_edges).length ∧
      0 < total_dist sw_edges 1 ∧ 1 < (graph_nodes sw_edges).length ∧
      closeness_centrality_nx sw_edges 1 = recip_avg_dist sw_edges 1) ∧
    ((∀ e ∈ cex_edges, e.src ≠ 7 ∧ e.tgt ≠ 7) ∧
      closeness_centrality_nx cex_edges 7 = 0) := by
  have h1c : 0 < total_dist cex_edges 1 := by rw [cex_total]; norm_num
  have h2c : 1 < (graph_nodes cex_edges).length := by rw [cex_len]; norm_num
  have hrs : reach_count sw_edges 1 = (graph_nodes sw_edges).length := by
    rw [sw_reach, sw_len]
  have h1s : 0 < total_dist sw_edges 1 := by rw [sw_total]; norm_num
  have h2s : 1 < (graph_nodes sw_edges).length := by rw [sw_len]; norm_num
  have hiso : ∀ e ∈ cex_edges, e.src ≠ 7 ∧ e.tgt ≠ 7 := by
    intro e he
    rcases List.mem_cons.mp he with rfl | he
    · exact ⟨by norm_num, by norm_num⟩
    · rcases List.mem_cons.mp he with rfl | he
      · exact ⟨by norm_num, by norm_num⟩
      · simp at he
  exact ⟨⟨h1c, h2c, (closeness_wf_formula cex_edges 1).1 h1c h2c⟩,
    ⟨hrs, h1s, h2s, (closeness_wf_formula sw_edges 1).2.1 hrs h1s h2s⟩,
    ⟨hiso, (closeness_wf_formula cex_edges 7).2.2 hiso⟩⟩

/-! The counterexample to the claim as stated requires the pipeline
evaluation of the four-book corpus. -/

theorem books4_jaccard_12 : compute_jaccard (books4 1) (books4 2) = 3/4 := by
  have h1 : books4 1 = {10, 11, 12, 13} := by norm_num [books4]
  have h2 : books4 2 = {10, 11, 12} := by norm_num [books4]
  have hi : (({10, 11, 12, 13} : Finset ℕ) ∩ {10, 11, 12}).card = 3 := by decide
  have hu : (({10, 11, 12, 13} : Finset ℕ) ∪ {10, 11, 12}).card = 4 := by decide
  rw [h1, h2]
  unfold compute_jaccard
  rw [hi, hu]
  norm_num

theorem books4_jaccard_13 : compute_jaccard (books4 1) (books4 3) = 0 := by
  have h1 : books4 1 = {10, 11, 12, 13} := by norm_num [books4]
  have h3 : books4 3 = {20, 21, 22, 23} := by norm_num [books4]
  have hi : (({10, 11, 12, 13} : Finset ℕ) ∩ {20, 21, 22, 23}).card = 0 := by
    decide
  have hu : (({10, 11, 12, 13} : Finset ℕ) ∪ {20, 21, 22, 23}).card = 8 := by
    decide
  rw [h1, h3]
  unfold compute_jaccard
  rw [hi, hu]
  norm_num

theorem books4_jaccard_14 : compute_jaccard (books4 1) (books4 4) = 0 := by
  have h1 : books4 1 = {10, 11, 12, 13} := by norm_num [books4]
  have h4 : books4 4 = {20, 21, 22} := by norm_num [books4]
  have hi : (({10, 11, 12, 13} : Finset ℕ) ∩ {20, 21, 22}).card = 0 := by decide
  have hu : (({10, 11, 12, 13} : Finset ℕ) ∪ {20, 21, 22}).card = 7 := by decide
  rw [h1, h4]
  unfold compute_jaccard
  rw [hi, hu]
  norm_num

theorem books4_jaccard_23 : compute_jaccard (books4 2) (books4 3) = 0 := by
  have h2 : books4 2 = {10, 11, 12} := by norm_num [books4]
  have h3 : books4 3 = {20, 21, 22, 23} := by norm_num [books4]
  have hi : (({10, 11, 12} : Finset ℕ) ∩ {20, 21, 22, 23}).card = 0 := by decide
  have hu : (({10, 11, 12} : Finset ℕ) ∪ {20, 21, 22, 23}).card = 7 := by decide
  rw [h2, h3]
  unfold compute_jaccard
  rw [hi, hu]
  norm_num

theorem books4_jaccard_24 : compute_jaccard (books4 2) (books4 4) = 0 := by
  have h2 : books4 2 = {10, 11, 12} := by norm_num [books4]
  have h4 : books4 4 = {20, 21, 22} := by norm_num [books4]
  have hi : (({10, 11, 12} : Finset ℕ) ∩ {20, 21, 22}).card = 0 := by decide
  have hu : (({10, 11, 12} : Finset ℕ) ∪ {20, 21, 22}).card = 6 := by decide
  rw [h2, h4]
  unfold compute_jaccard
  rw [hi, hu]
  norm_num

theorem books4_jaccard_34 : compute_jaccard (books4 3) (books4 4) = 3/4 := by
  have h3 : books4 3 = {20, 21, 22, 23} := by norm_num [books4]
  have h4 : books4 4 = {20, 21, 22} := by norm_num [books4]
  have hi : (({20, 21, 22, 23} : Finset ℕ) ∩ {20, 21, 22}).card = 3 := by decide
  have hu : (({20, 21, 22, 23} : Finset ℕ) ∪ {20, 21, 22}).card = 4 := by decide
  rw [h3, h4]
  unfold compute_jaccard
  rw [hi, hu]
  norm_num

theorem build_books4_eval :
    build_edges_parallel books4 jaccard_threshold [1, 2, 3, 4]
      = [⟨1, 2, 3/4⟩, ⟨3, 4, 3/4⟩] := by
  rw [build_eq_seq]
  simp only [seq_pair_edges, pair_edge, List.filterMap_cons, List.filterMap_nil,
    books4_jaccard_12, books4_jaccard_13, books4_jaccard_14,
    books4_jaccard_23, books4_jaccard_24, books4_jaccard_34, jaccard_threshold]
  norm_num

theorem distance_books4_eval :
    distance_edges [⟨1, 2, 3/4⟩, ⟨3, 4, 3/4⟩] = cex_edges := by
  norm_num [distance_edges, dist_weight, cex_edges]

/-- Counterexample for C5 as stated: in the graph built from the
accepted edges of the four-book corpus, node `1` is a graph node whose
closeness score (`4/3`, Wasserman–Faust normalized over the
disconnected graph) differs from the reciprocal of its average
shortest weighted path distance to the nodes reachable from it (`4`). -/
theorem closeness_claim_counterexample :
    (1 : BookId) ∈ graph_nodes (distance_edges
      (build_edges_parallel books4 jaccard_threshold [1, 2, 3, 4])) ∧
    closeness_table (build_edges_parallel books4 jaccard_threshold [1, 2, 3, 4]) 1
      ≠ recip_avg_dist (distance_edges
          (build_edges_parallel books4 jaccard_threshold [1, 2, 3, 4])) 1 := by
  rw [closeness_table, build_books4_eval, distance_books4_eval]
  constructor
  · rw [cex_nodes]
    norm_num
  · rw [cex_closeness, cex_recip]
    norm_num

/-- Witness for C2 at `A = {1}`, `B = {2}` over `ℕ`. -/
theorem jaccard_self_empty_comm_witness :
    ({1} : Finset ℕ).Nonempty ∧
    compute_jaccard ({1} : Finset ℕ) ({1} : Finset ℕ) = 1 ∧
    compute_jaccard (∅ : Finset ℕ) (∅ : Finset ℕ) = 0 ∧
    compute_jaccard ({1} : Finset ℕ) ({2} : Finset ℕ) =
      compute_jaccard ({2} : Finset ℕ) ({1} : Finset ℕ) := by
  have hne : ({1} : Finset ℕ).Nonempty := ⟨1, by decide⟩
  exact ⟨hne, (jaccard_self_empty_comm {1} {2}).1 hne,
    (jaccard_self_empty_comm ({1} : Finset ℕ) {2}).2.1,
    (jaccard_self_empty_comm ({1} : Finset ℕ) {2}).2.2⟩

end BookSearch
